import Mathlib

/-!
Verification of the compiled CSS-in-JS compiler pass (the babel plugin).

The definitions below are a shallow embedding of the plugin sources: the
entry visitor (Program exit, ImportDeclaration, TaggedTemplateExpression,
CallExpression and JSXOpeningElement handlers), the module-level sheet
hoister (hoistSheet), the CSS-variable prop builder (buildCssVariablesProp),
the prop destructuring performed by the styled component template
(styledTemplate) and the style-merging block of buildCompiledComponent,
together with the getPropValue utility.

Modules are lists of top-level statements; expressions are a small AST
covering the shapes the emitter actually inspects.  The two dispatch
functions visitStyledPath and visitCssPropPath are not part of the given
sources, so the program-level visitor is parametrised over them.
-/

namespace Compiled

/-- Style-expression AST nodes, as far as the emitter inspects them:
literals, identifiers, member accesses on the styled props parameter,
other member accesses, arrow functions and binary expressions. -/
inductive SExpr where
  | lit (s : String)
  | num (n : Int)
  | ident (name : String)
  | propsAccess (prop : String)
  | member (obj : String) (prop : String)
  | arrow (body : SExpr)
  | binary (l : SExpr) (r : SExpr)
  deriving DecidableEq

/-- An import specifier: a default import, a namespace import, or a
named import with its imported name and local name. -/
inductive ImportSpec where
  | defaultSpec (localName : String)
  | namespaceSpec (localName : String)
  | named (imported : String) (localName : String)
  deriving DecidableEq

/-- The local binding name an import specifier introduces. -/
def ImportSpec.localOf : ImportSpec → String
  | .defaultSpec l => l
  | .namespaceSpec l => l
  | .named _ l => l

/-- The node kinds the entry visitor dispatches on below the program level. -/
inductive SiteKind where
  | taggedTemplate
  | callExpr
  | jsxOpeningElement
  deriving DecidableEq

/-- A call site the entry visitor may dispatch: a tagged template
expression, a call expression or a JSX opening element.  The payload is
abstract; the dispatchers are parameters of the program visitor. -/
structure Site where
  kind : SiteKind
  data : Nat
  deriving DecidableEq

/-- A top-level statement of a module: an import declaration, a hoisted
sheet constant, or any other statement (recording the names it binds and
the call sites it contains). -/
inductive TopStmt where
  | importDecl (source : String) (specifiers : List ImportSpec)
  | constSheet (id : String) (sheet : String)
  | other (binds : List String) (sites : List Site)
  deriving DecidableEq

/-- Whether a top-level statement is an import declaration. -/
def TopStmt.isImport : TopStmt → Bool
  | .importDecl _ _ => true
  | _ => false

/-- Whether a top-level statement is a hoisted sheet constant. -/
def TopStmt.isConst : TopStmt → Bool
  | .constSheet _ _ => true
  | _ => false

/-- The record stored in state.compiledImports: the local name the user
chose for the styled export, when present. -/
structure CompiledImports where
  styled : Option String
  deriving DecidableEq

/-- Plugin options: an optional nonce variable name. -/
structure Opts where
  nonce : Option String
  deriving DecidableEq

/-- The per-module plugin state: the opt-in record, the hoisted sheet
mapping from rule string to generated identifier, the uid generator
counter backing scope.generateUidIdentifier, and the options. -/
structure PluginState where
  compiledImports : Option CompiledImports
  sheets : List (String × String)
  uidCounter : Nat
  opts : Opts
  deriving DecidableEq

/-- The state produced by the pre() hook for a fresh module compilation:
sheets reset to the empty mapping, no opt-in recorded yet. -/
def initState (opts : Opts) : PluginState :=
  { compiledImports := none, sheets := [], uidCounter := 0, opts := opts }

/-- The name produced by the n-th call of scope.generateUidIdentifier with
an empty hint: an underscore, then underscore-2, underscore-3 and so on. -/
def uidName : Nat → String
  | 0 => "_"
  | Nat.succ n => "_" ++ toString (n + 2)

/-- Insert a statement immediately before the first statement of the body
that is not an import declaration; none when every statement is an import
(the source would then dereference an undefined path). -/
def insertBeforeFirstNonImport (s : TopStmt) : List TopStmt → Option (List TopStmt)
  | [] => none
  | t :: ts =>
    if t.isImport then (insertBeforeFirstNonImport s ts).map (t :: ·)
    else some (s :: t :: ts)

/-- hoistSheet from ast-builders: look the sheet up in state.sheets and
return the recorded identifier on a hit; on a miss generate a fresh
identifier, insert a const declaration before the first non-import
statement, record the identifier and return it. -/
def hoistSheet (sheet : String) (st : PluginState) (body : List TopStmt) :
    Option (String × PluginState × List TopStmt) :=
  match st.sheets.lookup sheet with
  | some id => some (id, st, body)
  | none =>
    let id := uidName st.uidCounter
    (insertBeforeFirstNonImport (TopStmt.constSheet id sheet) body).map
      (fun body' =>
        (id, { st with sheets := (sheet, id) :: st.sheets, uidCounter := st.uidCounter + 1 },
          body'))

/-- Run hoistSheet over a list of sheet strings in order, threading the
state and the module body, collecting the returned identifiers. -/
def hoistAll : List String → PluginState → List TopStmt →
    Option (List String × PluginState × List TopStmt)
  | [], st, body => some ([], st, body)
  | s :: rest, st, body =>
    match hoistSheet s st body with
    | none => none
    | some (id, st', body') =>
      (hoistAll rest st' body').map (fun r => (id :: r.1, r.2.1, r.2.2))

/-- The number of hoisted sheet constants in a module body. -/
def countConsts (body : List TopStmt) : Nat :=
  (body.filter TopStmt.isConst).length

/-- How many strings of the list are fresh with respect to a set of
already-seen keys, counting each new string once. -/
def freshCount (K : List String) : List String → Nat
  | [] => 0
  | s :: rest => if s ∈ K then freshCount K rest else freshCount (s :: K) rest + 1

/-- A dynamic CSS variable binding of a CSSOutput: the generated custom
property name and the expression supplying its runtime value. -/
structure Var where
  name : String
  expr : SExpr
  deriving DecidableEq

/-- Modelled from the spec: the unique helper from the utils package
(absent from the given sources) collapses duplicates by key, preserving
the first occurrence.  Worker with an accumulator of seen keys. -/
def uniqueByAux (key : α → String) (seen : List String) : List α → List α
  | [] => []
  | x :: xs =>
    if key x ∈ seen then uniqueByAux key seen xs
    else x :: uniqueByAux key (key x :: seen) xs

/-- Modelled from the spec: duplicates by key are collapsed preserving
first occurrence. -/
def uniqueBy (key : α → String) (l : List α) : List α :=
  uniqueByAux key [] l

/-- buildCssVariablesProp from ast-builders: make the defined CSS
variables unique by name, then map each into an object property pairing
the variable name with its (possibly transformed) expression. -/
def buildCssVariablesProp (vars : List Var) (transform : SExpr → SExpr) :
    List (String × SExpr) :=
  (uniqueBy (fun v => v.name) vars).map (fun v => (v.name, transform v.expr))

/-- All property names a style expression reads off the styled props
parameter (member expressions whose object is the props identifier). -/
def accessedProps : SExpr → List String
  | .propsAccess p => [p]
  | .arrow b => accessedProps b
  | .binary l r => accessedProps l ++ accessedProps r
  | _ => []

/-- Whether an expression is an arrow function expression. -/
def isArrow : SExpr → Bool
  | .arrow _ => true
  | _ => false

/-- Modelled from the spec: pickFunctionBody (imported from the ast module,
absent from the given sources) strips the function wrapper, returning the
arrow function body. -/
def pickFunctionBody : SExpr → SExpr
  | .arrow b => b
  | e => e

/-- The nested MemberExpression visitor of styledTemplate: every access of
the props parameter whose property name is not a valid HTML attribute is
pushed (once) onto propsToDestructure and replaced by the bare property
identifier; valid attribute accesses are left alone.  Traversal is
left-to-right depth-first, threading the accumulator. -/
def replaceProps (valid : String → Bool) : SExpr → List String → SExpr × List String
  | .propsAccess p, acc =>
    if valid p then (.propsAccess p, acc)
    else (.ident p, if p ∈ acc then acc else acc ++ [p])
  | .arrow b, acc =>
    let r := replaceProps valid b acc
    (.arrow r.1, r.2)
  | .binary l r, acc =>
    let a := replaceProps valid l acc
    let b := replaceProps valid r a.2
    (.binary a.1 b.1, b.2)
  | e, acc => (e, acc)

/-- traverseStyledBinaryExpression: find the first arrow function in the
expression (depth first), run the member visitor over it, replace it with
its function body and stop.  The boolean reports whether an arrow function
was found in the subtree. -/
def replaceFirstArrow (valid : String → Bool) : SExpr → List String →
    SExpr × List String × Bool
  | .arrow b, acc =>
    let r := replaceProps valid b acc
    (r.1, r.2, true)
  | .binary l r, acc =>
    match replaceFirstArrow valid l acc with
    | (l', acc', true) => (.binary l' r, acc', true)
    | (l', acc', false) =>
      match replaceFirstArrow valid r acc' with
      | (r', acc'', f) => (.binary l' r', acc'', f)
  | e, acc => (e, acc, false)

/-- The expression transform styledTemplate passes to
buildCssVariablesProp: arrow functions are traversed and stripped to their
body, binary expressions have their first arrow function traversed and
replaced, anything else is returned unchanged.  The accumulator is the
shared propsToDestructure list. -/
def transformVarExpr (valid : String → Bool) (e : SExpr) (acc : List String) :
    SExpr × List String :=
  match e with
  | .arrow b =>
    let r := replaceProps valid (.arrow b) acc
    (pickFunctionBody r.1, r.2)
  | .binary l r =>
    let a := replaceFirstArrow valid (.binary l r) acc
    (a.1, a.2.1)
  | e => (e, acc)

/-- Modelled from the spec: the style evaluator (the css-builders module,
absent from the given sources) produces variable expressions that either
read nothing off the props parameter, or are an arrow function over props,
possibly with a prop-free unit suffix attached as a binary expression. -/
def evaluatorShaped (e : SExpr) : Bool :=
  (accessedProps e).isEmpty ||
    (match e with
     | .arrow _ => true
     | .binary l r => isArrow l && (accessedProps r).isEmpty
     | _ => false)

/-- The propsToDestructure list styledTemplate accumulates while building
the style prop: the variables are made unique by name and each expression
runs through the styled transform, threading the accumulator. -/
def styledDestructured (valid : String → Bool) (vars : List Var) : List String :=
  (uniqueBy (fun v => v.name) vars).foldl
    (fun acc v => (transformVarExpr valid v.expr acc).2) []

/-- The binding names of the parameter object of the emitted forwardRef
component, in order: the renamed as prop, style, then every destructured
prop name; everything else lands in the props rest. -/
def styledParamList (valid : String → Bool) (vars : List Var) : List String :=
  "as" :: "style" :: styledDestructured valid vars

/-- Object destructuring semantics of the emitted parameter object: the
rest receives exactly the caller prop keys not bound by an earlier
pattern. -/
def restKeys (params : List String) (propKeys : List String) : List String :=
  propKeys.filter (fun k => !(params.contains k))

/-- An object-expression member: an ordinary property, a spread element,
or an object method (methods, getters and setters all carry their kind). -/
inductive ObjProp where
  | prop (key : String) (value : SExpr)
  | spread (e : SExpr)
  | method (kind : String) (key : String)
  deriving DecidableEq

/-- Whether an object member is an object method (method, getter, setter). -/
def ObjProp.isMethod : ObjProp → Bool
  | .method _ _ => true
  | _ => false

/-- The value of a JSX attribute: an expression container holding an
object expression, another expression, or an empty expression; a string
literal; or no value. -/
inductive AttrValue where
  | exprObject (props : List ObjProp)
  | exprOther (e : SExpr)
  | exprEmpty
  | strLit (s : String)
  | noValue
  deriving DecidableEq

/-- A JSX attribute: a named attribute or a spread attribute. -/
inductive JSXAttr where
  | attr (name : String) (value : AttrValue)
  | spreadAttr (e : SExpr)
  deriving DecidableEq

/-- splice(i, 0, a) of JavaScript: insert at position i, clamped to the
end of the array. -/
def jsInsert (i : Nat) (a : α) (l : List α) : List α :=
  l.take i ++ a :: l.drop i

/-- The forEach loop of buildCompiledComponent over the properties of a
preexisting style object expression: object methods are skipped, every
other member is spliced into the dynamic property list at its original
index. -/
def mergeStylePropsAux (i : Nat) : List ObjProp → List ObjProp → List ObjProp
  | [], acc => acc
  | p :: ps, acc =>
    mergeStylePropsAux (i + 1) ps (if p.isMethod then acc else jsInsert i p acc)

/-- Merge the members of a preexisting style object into the dynamic
CSS-variable properties, starting at index zero. -/
def mergeStyleProps (orig : List ObjProp) (dyn : List ObjProp) : List ObjProp :=
  mergeStylePropsAux 0 orig dyn

/-- Find the first style JSX attribute (spread attributes are skipped),
returning the attributes before it, its value, and the attributes after. -/
def extractStyleAttr : List JSXAttr → Option (List JSXAttr × AttrValue × List JSXAttr)
  | [] => none
  | .attr n v :: rest =>
    if n == "style" then some ([], v, rest)
    else (extractStyleAttr rest).map (fun x => (JSXAttr.attr n v :: x.1, x.2.1, x.2.2))
  | .spreadAttr e :: rest =>
    (extractStyleAttr rest).map (fun x => (JSXAttr.spreadAttr e :: x.1, x.2.1, x.2.2))

/-- The dynamic style properties buildCompiledComponent computes from the
CSSOutput variables. -/
def dynamicStyleProps (vars : List Var) : List ObjProp :=
  (buildCssVariablesProp vars (fun e => e)).map (fun nv => ObjProp.prop nv.1 nv.2)

/-- The style-handling block of buildCompiledComponent: when the CSSOutput
has variables, the first preexisting style attribute is removed and a new
style attribute is pushed at the end of the attribute list; an
object-expression value has its members spliced in at their original
indices, any other non-empty expression container is spread in front, and
other values are dropped.  Without variables the attributes are left
alone. -/
def buildCompiledStyleAttributes (attrs : List JSXAttr) (vars : List Var) :
    List JSXAttr :=
  if vars.isEmpty then attrs
  else
    let dyn := dynamicStyleProps vars
    match extractStyleAttr attrs with
    | none => attrs ++ [.attr "style" (.exprObject dyn)]
    | some (before, v, after) =>
      let merged :=
        match v with
        | .exprObject ps => mergeStyleProps ps dyn
        | .exprOther e => ObjProp.spread e :: dyn
        | _ => dyn
      (before ++ after) ++ [.attr "style" (.exprObject merged)]

/-- The content of a JSX expression container: an empty expression (with
its source location) or an ordinary expression. -/
inductive ContainerExpr where
  | emptyExpr (line : Nat) (col : Nat)
  | expr (e : SExpr)
  deriving DecidableEq

/-- A node whose prop value getPropValue extracts: a JSX element, a JSX
fragment, a string literal, or a JSX expression container. -/
inductive JSXValueNode where
  | jsxElement (tag : String)
  | jsxFragment
  | stringLit (s : String)
  | exprContainer (e : ContainerExpr)
  deriving DecidableEq

/-- The value getPropValue returns. -/
inductive PropValue where
  | elem (tag : String)
  | frag
  | str (s : String)
  | expr (e : SExpr)
  deriving DecidableEq

/-- getPropValue from ast-builders: unwrap an expression container, throw
on an empty JSX expression, return everything else as is. -/
def getPropValue : JSXValueNode → Except String PropValue
  | .jsxElement t => .ok (.elem t)
  | .jsxFragment => .ok (.frag)
  | .stringLit s => .ok (.str s)
  | .exprContainer (.emptyExpr _ _) => .error "Empty expression not supported."
  | .exprContainer (.expr e) => .ok (.expr e)

/-- importSpecifier from ast-builders with the local name defaulted: a
named import specifier whose imported and local names coincide. -/
def importSpecifier (name : String) : ImportSpec :=
  .named name name

/-- Whether a specifier is a named import of the styled export. -/
def isStyledNamed : ImportSpec → Bool
  | .named i _ => i == "styled"
  | _ => false

/-- The filter callback of the ImportDeclaration visitor, threaded over
the specifier list: named styled specifiers are dropped while their local
name is recorded (a later occurrence overwrites an earlier one); all
other specifiers are kept. -/
def filterStyledSpecs : List ImportSpec → Option String → List ImportSpec × Option String
  | [], acc => ([], acc)
  | .named i l :: rest, acc =>
    if i == "styled" then filterStyledSpecs rest (some l)
    else
      let r := filterStyledSpecs rest acc
      (.named i l :: r.1, r.2)
  | s :: rest, acc =>
    let r := filterStyledSpecs rest acc
    (s :: r.1, r.2)

/-- One step of recording the styled local name while filtering: a named
styled specifier overwrites the record, everything else keeps it. -/
def styledStep (acc : Option String) (s : ImportSpec) : Option String :=
  match s with
  | .named i l => if i == "styled" then some l else acc
  | _ => acc

/-- The local styled name the filter records: the last named styled
specifier wins. -/
def styledLocalOf (specs : List ImportSpec) : Option String :=
  specs.foldl styledStep none

/-- The ImportDeclaration visitor: imports from other sources are left
alone; an import from the compiled core package marks the module as opted
in, drops a named styled specifier while recording its local name, and
appends named specifiers for ax, CC and CS. -/
def visitImportDeclaration (st : PluginState) (source : String)
    (specs : List ImportSpec) : TopStmt × PluginState :=
  if source == "@compiled/core" then
    let r := filterStyledSpecs specs none
    (.importDecl source (r.1 ++ [importSpecifier "ax", importSpecifier "CC", importSpecifier "CS"]),
      { st with compiledImports := some { styled := r.2 } })
  else (.importDecl source specs, st)

/-- The two dispatch targets of the entry visitor, visitStyledPath and
visitCssPropPath, are not part of the given sources; the program visitor
is parametrised over them as arbitrary transformers of a site and the
plugin state. -/
structure Visitors where
  styledTagged : Site → PluginState → Site × PluginState
  styledCall : Site → PluginState → Site × PluginState
  cssProp : Site → PluginState → Site × PluginState

/-- Dispatch for one call site: tagged template expressions require a
recorded styled local name, call expressions and JSX opening elements
require only the opt-in record; otherwise the visitor returns without
changes. -/
def visitSite (V : Visitors) (st : PluginState) (s : Site) : Site × PluginState :=
  match s.kind with
  | .taggedTemplate =>
    match st.compiledImports with
    | some ci => match ci.styled with
      | some _ => V.styledTagged s st
      | none => (s, st)
    | none => (s, st)
  | .callExpr =>
    match st.compiledImports with
    | some _ => V.styledCall s st
    | none => (s, st)
  | .jsxOpeningElement =>
    match st.compiledImports with
    | some _ => V.cssProp s st
    | none => (s, st)

/-- Visit the call sites of one statement in order, threading the state. -/
def visitSites (V : Visitors) (st : PluginState) : List Site → PluginState × List Site
  | [] => (st, [])
  | s :: rest =>
    let a := visitSite V st s
    let b := visitSites V a.2 rest
    (b.1, a.1 :: b.2)

/-- Visit the top-level statements of a module in source order: import
declarations run the ImportDeclaration visitor, other statements have
their call sites dispatched. -/
def visitStmts (V : Visitors) (st : PluginState) : List TopStmt → PluginState × List TopStmt
  | [] => (st, [])
  | .importDecl src specs :: rest =>
    let a := visitImportDeclaration st src specs
    let b := visitStmts V a.2 rest
    (b.1, a.1 :: b.2)
  | .other binds sites :: rest =>
    let a := visitSites V st sites
    let b := visitStmts V a.1 rest
    (b.1, .other binds a.2 :: b.2)
  | s :: rest =>
    let b := visitStmts V st rest
    (b.1, s :: b.2)

/-- Whether a top-level statement introduces a binding of the given name. -/
def stmtBinds (n : String) : TopStmt → Bool
  | .importDecl _ specs => specs.any (fun s => s.localOf == n)
  | .constSheet id _ => id == n
  | .other binds _ => binds.contains n

/-- Whether the module scope holds a binding named React. -/
def bindsReact (body : List TopStmt) : Bool :=
  body.any (stmtBinds "React")

/-- The import statement the Program exit hook prepends: the React
namespace import from the react package. -/
def reactImport : TopStmt :=
  .importDecl "react" [.namespaceSpec "React"]

/-- The Program exit hook: when the module opted in and no React binding
exists in scope, prepend the React namespace import; otherwise leave the
body alone. -/
def programExit (st : PluginState) (body : List TopStmt) : List TopStmt :=
  if st.compiledImports.isSome && !(bindsReact body) then reactImport :: body
  else body

/-- The whole plugin pass over one module: visit the statements in order,
then run the Program exit hook. -/
def transformProgram (V : Visitors) (st : PluginState) (m : List TopStmt) :
    List TopStmt :=
  let r := visitStmts V st m
  programExit r.1 r.2

/-- One plugin run over a module, as the babel harness drives it: the
pre() hook resets the per-module state and initialises the process-wide
cache from the options; the cache is carried along but never read by the
transform.  The cache type and its initialisation are parameters since the
cache implementation is not part of the given sources. -/
def runPass {κ : Type} (initCache : κ → Opts → κ) (c : κ) (V : Visitors)
    (opts : Opts) (m : List TopStmt) : List TopStmt × κ :=
  (transformProgram V (initState opts) m, initCache c opts)

/-- Whether the module contains an import from the compiled core package. -/
def hasCompiledImport (m : List TopStmt) : Bool :=
  m.any (fun s =>
    match s with
    | .importDecl src _ => src == "@compiled/core"
    | _ => false)

/-! ## General helper lemmas -/

lemma contains_iff_mem (l : List String) (a : String) : l.contains a = true ↔ a ∈ l := by
  induction l with
  | nil => simp
  | cons x xs ih => simp

/-! ## Claim C3: determinism of the pass -/

/-- Claim C3: the pass is deterministic.  In the embedding the transform
is a pure function of the options and the input module; the process-wide
cache is initialised by pre() but never read, so runs from different cache
states, and in particular a second run using the cache left behind by a
first run, produce equal outputs on equal input modules. -/
theorem transform_deterministic (κ : Type) (initCache : κ → Opts → κ) (c₁ c₂ : κ)
    (V : Visitors) (opts : Opts) (m₁ m₂ : List TopStmt) (h : m₁ = m₂) :
    (runPass initCache c₁ V opts m₁).1 = (runPass initCache c₂ V opts m₂).1
    ∧ (runPass initCache (runPass initCache c₁ V opts m₁).2 V opts m₂).1
        = (runPass initCache c₁ V opts m₁).1 := by
  subst h; exact ⟨rfl, rfl⟩

/-- Witness for C3 on a concrete module, concrete visitors and two
distinct cache values. -/
theorem transform_deterministic_witness :
    (runPass (fun (c : Nat) _ => c + 1) 0
        ⟨fun s st => (s, st), fun s st => (s, st), fun s st => (s, st)⟩ ⟨none⟩
        [TopStmt.importDecl "@compiled/core" [],
         TopStmt.other ["Component"] [⟨SiteKind.jsxOpeningElement, 0⟩]]).1
      = (runPass (fun (c : Nat) _ => c + 1) 5
          ⟨fun s st => (s, st), fun s st => (s, st), fun s st => (s, st)⟩ ⟨none⟩
          [TopStmt.importDecl "@compiled/core" [],
           TopStmt.other ["Component"] [⟨SiteKind.jsxOpeningElement, 0⟩]]).1 :=
  (transform_deterministic Nat (fun c _ => c + 1) 0 5
    ⟨fun s st => (s, st), fun s st => (s, st), fun s st => (s, st)⟩ ⟨none⟩
    [TopStmt.importDecl "@compiled/core" [],
     TopStmt.other ["Component"] [⟨SiteKind.jsxOpeningElement, 0⟩]]
    [TopStmt.importDecl "@compiled/core" [],
     TopStmt.other ["Component"] [⟨SiteKind.jsxOpeningElement, 0⟩]] rfl).1

/-! ## Claim C4: modules without the enabling import are untouched -/

lemma visitSite_no_opt (V : Visitors) (st : PluginState) (s : Site)
    (h : st.compiledImports = none) : visitSite V st s = (s, st) := by
  obtain ⟨k, d⟩ := s
  cases k <;> simp [visitSite, h]

lemma visitSites_no_opt (V : Visitors) (st : PluginState)
    (h : st.compiledImports = none) :
    ∀ sites : List Site, visitSites V st sites = (st, sites) := by
  intro sites
  induction sites with
  | nil => rfl
  | cons s rest ih => simp [visitSites, visitSite_no_opt V st s h, ih]

lemma visitStmts_no_compiled (V : Visitors) :
    ∀ (m : List TopStmt) (st : PluginState),
      st.compiledImports = none → hasCompiledImport m = false →
      visitStmts V st m = (st, m) := by
  intro m
  induction m with
  | nil => intro st _ _; rfl
  | cons t rest ih =>
    intro st hst hm
    have hrest : hasCompiledImport rest = false := by
      rw [hasCompiledImport] at hm ⊢
      simp only [List.any_cons, Bool.or_eq_false_iff] at hm
      exact hm.2
    cases t with
    | importDecl src specs =>
      have hsrc : (src == "@compiled/core") = false := by
        rw [hasCompiledImport] at hm
        simp only [List.any_cons, Bool.or_eq_false_iff] at hm
        exact hm.1
      simp [visitStmts, visitImportDeclaration, hsrc, ih st hst hrest]
    | constSheet id sheet =>
      simp [visitStmts, ih st hst hrest]
    | other binds sites =>
      simp [visitStmts, visitSites_no_opt V st hst sites, ih st hst hrest]

/-- Claim C4: a module with no import from the compiled core package is
left completely untouched: with compiledImports unset every visitor
returns without changes, the Program exit hook adds no React import, and
the output equals the input, whatever the two dispatch functions do. -/
theorem no_compiled_import_untouched (V : Visitors) (opts : Opts) (m : List TopStmt)
    (h : hasCompiledImport m = false) :
    transformProgram V (initState opts) m = m := by
  rw [transformProgram, visitStmts_no_compiled V m (initState opts) rfl h]
  simp [programExit, initState]

/-- Witness for C4 on a concrete module with imports from other sources,
a binding-free statement with call sites, and non-trivial dispatchers. -/
theorem no_compiled_import_untouched_witness :
    transformProgram
        ⟨fun s st => ({ s with data := s.data + 1 }, st),
         fun s st => ({ s with data := s.data + 2 }, st),
         fun s st => ({ s with data := s.data + 3 }, st)⟩
        (initState ⟨some "nonce"⟩)
        [TopStmt.importDecl "react" [.defaultSpec "React"],
         TopStmt.other ["Component"]
           [⟨SiteKind.jsxOpeningElement, 0⟩, ⟨SiteKind.callExpr, 1⟩,
            ⟨SiteKind.taggedTemplate, 2⟩]]
      = [TopStmt.importDecl "react" [.defaultSpec "React"],
         TopStmt.other ["Component"]
           [⟨SiteKind.jsxOpeningElement, 0⟩, ⟨SiteKind.callExpr, 1⟩,
            ⟨SiteKind.taggedTemplate, 2⟩]] :=
  no_compiled_import_untouched
    ⟨fun s st => ({ s with data := s.data + 1 }, st),
     fun s st => ({ s with data := s.data + 2 }, st),
     fun s st => ({ s with data := s.data + 3 }, st)⟩
    ⟨some "nonce"⟩
    [TopStmt.importDecl "react" [.defaultSpec "React"],
     TopStmt.other ["Component"]
       [⟨SiteKind.jsxOpeningElement, 0⟩, ⟨SiteKind.callExpr, 1⟩,
        ⟨SiteKind.taggedTemplate, 2⟩]]
    (by decide)

/-! ## Claim C6: rewriting the enabling import -/

lemma filterStyledSpecs_eq :
    ∀ (specs : List ImportSpec) (acc : Option String),
      filterStyledSpecs specs acc
        = (specs.filter (fun s => !(isStyledNamed s)), specs.foldl styledStep acc) := by
  intro specs
  induction specs with
  | nil => intro acc; rfl
  | cons s rest ih =>
    intro acc
    cases s with
    | named i l =>
      by_cases hi : (i == "styled") = true
      · simp [filterStyledSpecs, hi, isStyledNamed, styledStep, ih]
      · simp only [Bool.not_eq_true] at hi
        simp [filterStyledSpecs, hi, isStyledNamed, styledStep, ih]
    | defaultSpec l => simp [filterStyledSpecs, isStyledNamed, styledStep, ih]
    | namespaceSpec l => simp [filterStyledSpecs, isStyledNamed, styledStep, ih]

/-- Claim C6: the ImportDeclaration visitor on an import from the compiled
core package marks the module as opted in, removes a named styled
specifier while recording its local name (the last one winning) in
state.compiledImports.styled, and always appends named specifiers for ax,
CC and CS to the specifier list. -/
theorem import_visitor_rewrite (st : PluginState) (specs : List ImportSpec) :
    (visitImportDeclaration st "@compiled/core" specs).2.compiledImports
        = some { styled := styledLocalOf specs }
    ∧ ((visitImportDeclaration st "@compiled/core" specs).2.compiledImports).isSome = true
    ∧ (visitImportDeclaration st "@compiled/core" specs).1
        = TopStmt.importDecl "@compiled/core"
            ((specs.filter (fun s => !(isStyledNamed s)))
              ++ [importSpecifier "ax", importSpecifier "CC", importSpecifier "CS"])
    ∧ (specs.filter (fun s => !(isStyledNamed s))).all (fun s => !(isStyledNamed s)) = true := by
  refine ⟨?_, ?_, ?_, ?_⟩
  · simp [visitImportDeclaration, filterStyledSpecs_eq, styledLocalOf]
  · simp [visitImportDeclaration, filterStyledSpecs_eq]
  · simp [visitImportDeclaration, filterStyledSpecs_eq]
  · simp [List.all_eq_true]

/-! ## Claim C7: the Program exit hook and the React import -/

/-- Claim C7: at Program exit the React namespace import is prepended if
and only if the module opted in and no binding named React exists in the
module scope; when a React binding exists, or the module did not opt in,
the body is returned unchanged. -/
theorem react_import_iff (st : PluginState) (body : List TopStmt) :
    (programExit st body = reactImport :: body
      ↔ (st.compiledImports.isSome = true ∧ bindsReact body = false))
    ∧ (bindsReact body = true → programExit st body = body)
    ∧ (st.compiledImports = none → programExit st body = body) := by
  refine ⟨⟨?_, ?_⟩, ?_, ?_⟩
  · intro h
    by_cases hc : st.compiledImports.isSome = true
    · by_cases hb : bindsReact body = true
      · rw [programExit, hc, hb] at h
        simp at h
      · exact ⟨hc, by simpa using hb⟩
    · have hc' : st.compiledImports.isSome = false := by simpa using hc
      rw [programExit, hc'] at h
      simp at h
  · rintro ⟨hc, hb⟩
    rw [programExit, hc, hb]
    simp
  · intro hb
    rw [programExit, hb]
    simp
  · intro hn
    rw [programExit, hn]
    simp

/-- Witness for C7: a module that opted in with no React binding receives
the import; a module with a React binding does not. -/
theorem react_import_iff_witness :
    programExit
        { compiledImports := some { styled := none }, sheets := [], uidCounter := 0,
          opts := { nonce := none } }
        [TopStmt.other ["Component"] []]
      = reactImport :: [TopStmt.other ["Component"] []]
    ∧ programExit
        { compiledImports := some { styled := none }, sheets := [], uidCounter := 0,
          opts := { nonce := none } }
        [TopStmt.importDecl "react" [.defaultSpec "React"]]
      = [TopStmt.importDecl "react" [.defaultSpec "React"]] :=
  ⟨(react_import_iff
      { compiledImports := some { styled := none }, sheets := [], uidCounter := 0,
        opts := { nonce := none } }
      [TopStmt.other ["Component"] []]).1.mpr (by decide),
   (react_import_iff
      { compiledImports := some { styled := none }, sheets := [], uidCounter := 0,
        opts := { nonce := none } }
      [TopStmt.importDecl "react" [.defaultSpec "React"]]).2.1 (by decide)⟩

/-! ## Claim C9: the empty-expression error -/

/-- Counterexample for C9 as stated: at the concrete offending input (an
empty JSX expression at line 3, column 17) the raised error carries the
fixed message, whose text contains no digit at all, and the message is
identical for a different source location — so the error names the
construct but cannot name the source location of the offending
expression. -/
theorem getPropValue_location_counterexample :
    getPropValue (.exprContainer (.emptyExpr 3 17))
        = .error "Empty expression not supported."
    ∧ ("Empty expression not supported.".data.all (fun c => !c.isDigit)) = true
    ∧ getPropValue (.exprContainer (.emptyExpr 99 1))
        = getPropValue (.exprContainer (.emptyExpr 3 17)) :=
  ⟨rfl, by decide, rfl⟩

/-- Claim C9 amended: an empty JSX expression in a relevant attribute slot
raises an error naming the construct, with the fixed message and no
source location, whatever the location of the offending expression. -/
theorem getPropValue_empty_error (line col : Nat) :
    getPropValue (.exprContainer (.emptyExpr line col))
      = .error "Empty expression not supported." := rfl

/-! ## Properties of the unique helper -/

lemma uniqueByAux_subset (key : α → String) :
    ∀ (l : List α) (seen : List String) (x : α),
      x ∈ uniqueByAux key seen l → x ∈ l := by
  intro l
  induction l with
  | nil => intro seen x h; simp [uniqueByAux] at h
  | cons a as ih =>
    intro seen x h
    by_cases hs : key a ∈ seen
    · simp [uniqueByAux, hs] at h
      exact List.mem_cons_of_mem _ (ih _ _ h)
    · simp [uniqueByAux, hs] at h
      rcases h with h | h
      · exact h ▸ List.mem_cons_self _ _
      · exact List.mem_cons_of_mem _ (ih _ _ h)

lemma uniqueByAux_fresh (key : α → String) :
    ∀ (l : List α) (seen : List String) (x : α),
      x ∈ uniqueByAux key seen l → key x ∉ seen := by
  intro l
  induction l with
  | nil => intro seen x h; simp [uniqueByAux] at h
  | cons a as ih =>
    intro seen x h
    by_cases hs : key a ∈ seen
    · simp [uniqueByAux, hs] at h
      exact ih _ _ h
    · simp [uniqueByAux, hs] at h
      rcases h with h | h
      · exact h ▸ hs
      · have := ih _ _ h
        intro hx
        exact this (List.mem_cons_of_mem _ hx)

lemma uniqueByAux_covers (key : α → String) :
    ∀ (l : List α) (seen : List String) (v : α),
      v ∈ l → key v ∉ seen →
      ∃ u ∈ uniqueByAux key seen l, key u = key v := by
  intro l
  induction l with
  | nil => intro seen v h; simp at h
  | cons a as ih =>
    intro seen v hv hseen
    by_cases hs : key a ∈ seen
    · have hva : v ∈ as := by
        rcases List.mem_cons.mp hv with h | h
        · exact absurd (h ▸ hs) hseen
        · exact h
      obtain ⟨u, hu, hk⟩ := ih seen v hva hseen
      exact ⟨u, by simp [uniqueByAux, hs, hu], hk⟩
    · rcases List.mem_cons.mp hv with h | h
      · exact ⟨a, by simp [uniqueByAux, hs], by rw [h]⟩
      · by_cases hk : key v = key a
        · exact ⟨a, by simp [uniqueByAux, hs], hk.symm⟩
        · have hseen' : key v ∉ key a :: seen := by
            intro hx
            rcases List.mem_cons.mp hx with h1 | h1
            · exact hk h1
            · exact hseen h1
          obtain ⟨u, hu, hku⟩ := ih (key a :: seen) v h hseen'
          exact ⟨u, by simp [uniqueByAux, hs]; exact Or.inr hu, hku⟩

lemma uniqueByAux_nodup_keys (key : α → String) :
    ∀ (l : List α) (seen : List String),
      ((uniqueByAux key seen l).map key).Nodup := by
  intro l
  induction l with
  | nil => intro seen; simp [uniqueByAux]
  | cons a as ih =>
    intro seen
    by_cases hs : key a ∈ seen
    · simpa [uniqueByAux, hs] using ih seen
    · simp only [uniqueByAux, hs, if_false, List.map_cons]
      refine List.nodup_cons.mpr ⟨?_, ih (key a :: seen)⟩
      intro hmem
      obtain ⟨u, hu, hku⟩ := List.mem_map.mp hmem
      exact uniqueByAux_fresh key as (key a :: seen) u hu (hku ▸ List.mem_cons_self _ _)

lemma uniqueByAux_find (key : α → String) :
    ∀ (l : List α) (seen : List String) (x : α),
      x ∈ uniqueByAux key seen l →
      l.find? (fun y => key y == key x) = some x := by
  intro l
  induction l with
  | nil => intro seen x h; simp [uniqueByAux] at h
  | cons a as ih =>
    intro seen x h
    by_cases hs : key a ∈ seen
    · simp only [uniqueByAux, hs, if_true] at h
      have hxs : key x ∉ seen := uniqueByAux_fresh key as seen x h
      have hne : (key a == key x) = false := by
        simp only [beq_eq_false_iff_ne, ne_eq]
        intro he
        exact hxs (he ▸ hs)
      rw [List.find?_cons_of_neg _ (by simp [hne]), ih seen x h]
    · simp only [uniqueByAux, hs, if_false, List.mem_cons] at h
      rcases h with h | h
      · subst h
        rw [List.find?_cons_of_pos _ (by simp)]
      · have hxs : key x ∉ key a :: seen := uniqueByAux_fresh key as _ x h
        have hne : (key a == key x) = false := by
          simp only [beq_eq_false_iff_ne, ne_eq]
          intro he
          exact hxs (he ▸ List.mem_cons_self _ _)
        rw [List.find?_cons_of_neg _ (by simp [hne]), ih _ x h]

lemma uniqueByAux_map_key (key : α → String) :
    ∀ (l : List α) (seen : List String),
      (uniqueByAux key seen l).map key
        = uniqueByAux (fun s => s) seen (l.map key) := by
  intro l
  induction l with
  | nil => intro seen; simp [uniqueByAux]
  | cons a as ih =>
    intro seen
    by_cases hs : key a ∈ seen
    · simp [uniqueByAux, hs, ih]
    · simp [uniqueByAux, hs, ih]

lemma uniqueByAux_mem_id :
    ∀ (l seen : List String) (a : String),
      a ∈ uniqueByAux (fun s => s) seen l ↔ (a ∈ l ∧ a ∉ seen) := by
  intro l
  induction l with
  | nil => intro seen a; simp [uniqueByAux]
  | cons x xs ih =>
    intro seen a
    by_cases hs : x ∈ seen
    · rw [uniqueByAux]
      simp only [hs, if_true]
      rw [ih]
      constructor
      · rintro ⟨h1, h2⟩
        exact ⟨List.mem_cons_of_mem _ h1, h2⟩
      · rintro ⟨h1, h2⟩
        rcases List.mem_cons.mp h1 with h | h
        · exact absurd (h ▸ hs) h2
        · exact ⟨h, h2⟩
    · rw [uniqueByAux]
      simp only [hs, if_false, List.mem_cons]
      rw [ih]
      constructor
      · rintro (h | ⟨h1, h2⟩)
        · exact ⟨Or.inl h, h ▸ hs⟩
        · refine ⟨Or.inr h1, fun hx => h2 (List.mem_cons_of_mem _ hx)⟩
      · rintro ⟨h1 | h1, h2⟩
        · exact Or.inl h1
        · by_cases hax : a = x
          · exact Or.inl hax
          · exact Or.inr ⟨h1, by
              intro hx
              rcases List.mem_cons.mp hx with h | h
              · exact hax h
              · exact h2 h⟩

lemma uniqueBy_id_length (names : List String) :
    (uniqueBy (fun s => s) names).length = names.dedup.length := by
  have hnd : (uniqueBy (fun s => s) names).Nodup := by
    have h := uniqueByAux_nodup_keys (fun s => s) names []
    simpa [uniqueBy] using h
  have hmem : ∀ a, a ∈ uniqueBy (fun s => s) names ↔ a ∈ names := by
    intro a
    rw [uniqueBy, uniqueByAux_mem_id]
    simp
  calc (uniqueBy (fun s => s) names).length
      = (uniqueBy (fun s => s) names).toFinset.card :=
        (List.toFinset_card_of_nodup hnd).symm
    _ = names.toFinset.card := by
        congr 1
        ext a
        simp [List.mem_toFinset, hmem]
    _ = names.dedup.length := List.card_toFinset names

/-! ## Claim C5: coalescing of duplicate CSS variables -/

/-- Claim C5: buildCssVariablesProp emits exactly one property per
distinct variable name: the emitted names are exactly the distinct names
in first-occurrence order without duplicates, the kept expression is the
one of the first occurrence of the name, and the number of properties is
the number of distinct names. -/
theorem buildCssVariablesProp_unique (vars : List Var) :
    ((buildCssVariablesProp vars (fun e => e)).map Prod.fst).Nodup
    ∧ (buildCssVariablesProp vars (fun e => e)).map Prod.fst
        = uniqueBy (fun s => s) (vars.map (fun v => v.name))
    ∧ (∀ n e, (n, e) ∈ buildCssVariablesProp vars (fun e => e) →
        vars.find? (fun v => v.name == n) = some ⟨n, e⟩)
    ∧ (buildCssVariablesProp vars (fun e => e)).length
        = (vars.map (fun v => v.name)).dedup.length := by
  have hmap : (buildCssVariablesProp vars (fun e => e)).map Prod.fst
      = (uniqueBy (fun v : Var => v.name) vars).map (fun v => v.name) := by
    simp [buildCssVariablesProp, List.map_map]
  refine ⟨?_, ?_, ?_, ?_⟩
  · rw [hmap]
    exact uniqueByAux_nodup_keys (fun v : Var => v.name) vars []
  · rw [hmap, uniqueBy, uniqueByAux_map_key, uniqueBy]
  · intro n e hmem
    rw [buildCssVariablesProp] at hmem
    obtain ⟨v, hv, hve⟩ := List.mem_map.mp hmem
    have h1 : v.name = n := congrArg Prod.fst hve
    have h2 : v.expr = e := congrArg Prod.snd hve
    have hfind := uniqueByAux_find (fun v : Var => v.name) vars [] v hv
    subst h1
    subst h2
    exact hfind
  · calc (buildCssVariablesProp vars (fun e => e)).length
        = ((buildCssVariablesProp vars (fun e => e)).map Prod.fst).length :=
          (List.length_map _ _).symm
      _ = (uniqueBy (fun s => s) (vars.map (fun v => v.name))).length := by
          rw [hmap, uniqueBy, uniqueByAux_map_key, uniqueBy]
      _ = (vars.map (fun v => v.name)).dedup.length :=
          uniqueBy_id_length (vars.map (fun v => v.name))

/-- Witness for C5: with two occurrences of a variable name the kept
expression is the first one. -/
theorem buildCssVariablesProp_unique_witness :
    ([⟨"--a", SExpr.lit "1"⟩, ⟨"--b", SExpr.lit "2"⟩,
      ⟨"--a", SExpr.lit "3"⟩] : List Var).find? (fun v => v.name == "--a")
      = some ⟨"--a", SExpr.lit "1"⟩ :=
  (buildCssVariablesProp_unique
    [⟨"--a", SExpr.lit "1"⟩, ⟨"--b", SExpr.lit "2"⟩, ⟨"--a", SExpr.lit "3"⟩]).2.2.1
    "--a" (SExpr.lit "1") (by decide)

/-! ## Claim C2: prop isolation for styled components -/

lemma replaceProps_mono (valid : String → Bool) :
    ∀ (e : SExpr) (acc : List String) (p : String),
      p ∈ acc → p ∈ (replaceProps valid e acc).2 := by
  intro e
  induction e with
  | lit s => intro acc p h; exact h
  | num n => intro acc p h; exact h
  | ident n => intro acc p h; exact h
  | member o q => intro acc p h; exact h
  | propsAccess q =>
    intro acc p h
    rw [replaceProps]
    by_cases hv : valid q = true
    · simp [hv]; exact h
    · simp [hv]
      by_cases hq : q ∈ acc
      · simp [hq]; exact h
      · simp [hq]; exact Or.inl h
  | arrow b ih =>
    intro acc p h
    exact ih acc p h
  | binary l r ihl ihr =>
    intro acc p h
    exact ihr _ p (ihl acc p h)

lemma replaceProps_collects (valid : String → Bool) :
    ∀ (e : SExpr) (acc : List String) (p : String),
      p ∈ accessedProps e → valid p = false →
      p ∈ (replaceProps valid e acc).2 := by
  intro e
  induction e with
  | lit s => intro acc p h; simp [accessedProps] at h
  | num n => intro acc p h; simp [accessedProps] at h
  | ident n => intro acc p h; simp [accessedProps] at h
  | member o q => intro acc p h; simp [accessedProps] at h
  | propsAccess q =>
    intro acc p h hv
    have hq : p = q := by simpa [accessedProps] using h
    subst hq
    rw [replaceProps]
    simp [hv]
    by_cases hmem : p ∈ acc
    · simp [hmem]
    · simp [hmem]
  | arrow b ih =>
    intro acc p h hv
    exact ih acc p (by simpa [accessedProps] using h) hv
  | binary l r ihl ihr =>
    intro acc p h hv
    rw [accessedProps] at h
    rcases List.mem_append.mp h with h1 | h1
    · exact replaceProps_mono valid r _ p (ihl acc p h1 hv)
    · exact ihr _ p h1 hv

lemma replaceFirstArrow_mono (valid : String → Bool) :
    ∀ (e : SExpr) (acc : List String) (p : String), p ∈ acc →
      p ∈ (replaceFirstArrow valid e acc).2.1 := by
  intro e
  induction e with
  | lit s => intro acc p h; exact h
  | num n => intro acc p h; exact h
  | ident n => intro acc p h; exact h
  | member o q => intro acc p h; exact h
  | propsAccess q => intro acc p h; exact h
  | arrow b ih => intro acc p h; exact replaceProps_mono valid b acc p h
  | binary l r ihl ihr =>
    intro acc p h
    rw [replaceFirstArrow]
    split
    · rename_i l'' acc'' heq
      have h1 := ihl acc p h
      rw [heq] at h1
      exact h1
    · rename_i l'' acc'' heq
      split
      rename_i r'' acc3 f2 heq2
      have h1 := ihl acc p h
      rw [heq] at h1
      have h2 := ihr acc'' p h1
      rw [heq2] at h2
      exact h2

lemma transformVarExpr_mono (valid : String → Bool) (e : SExpr)
    (acc : List String) (p : String) (h : p ∈ acc) :
    p ∈ (transformVarExpr valid e acc).2 := by
  cases e with
  | arrow b => exact replaceProps_mono valid (.arrow b) acc p h
  | binary l r => exact replaceFirstArrow_mono valid (.binary l r) acc p h
  | lit s => exact h
  | num n => exact h
  | ident n => exact h
  | member o q => exact h
  | propsAccess q => exact h

lemma transformVarExpr_collects (valid : String → Bool) (e : SExpr)
    (he : evaluatorShaped e = true) (acc : List String) (p : String)
    (hp : p ∈ accessedProps e) (hv : valid p = false) :
    p ∈ (transformVarExpr valid e acc).2 := by
  cases e with
  | lit s => simp [accessedProps] at hp
  | num n => simp [accessedProps] at hp
  | ident n => simp [accessedProps] at hp
  | member o q => simp [accessedProps] at hp
  | propsAccess q => simp [evaluatorShaped, accessedProps, isArrow] at he
  | arrow b =>
    exact replaceProps_collects valid (.arrow b) acc p hp hv
  | binary l r =>
    rw [evaluatorShaped, Bool.or_eq_true] at he
    rcases he with he | he
    · rw [List.isEmpty_iff] at he
      rw [he] at hp
      simp at hp
    · rw [Bool.and_eq_true] at he
      obtain ⟨hl, hr⟩ := he
      cases l with
      | arrow b =>
        rw [List.isEmpty_iff] at hr
        have hpb : p ∈ accessedProps b := by
          rw [accessedProps, hr, List.append_nil] at hp
          simpa [accessedProps] using hp
        rw [transformVarExpr, replaceFirstArrow, replaceFirstArrow]
        exact replaceProps_collects valid b acc p hpb hv
      | lit s => simp [isArrow] at hl
      | num n => simp [isArrow] at hl
      | ident n => simp [isArrow] at hl
      | member o q => simp [isArrow] at hl
      | propsAccess q => simp [isArrow] at hl
      | binary a b => simp [isArrow] at hl

lemma destructured_fold_mono (valid : String → Bool) :
    ∀ (l : List Var) (acc : List String) (p : String), p ∈ acc →
      p ∈ l.foldl (fun a v => (transformVarExpr valid v.expr a).2) acc := by
  intro l
  induction l with
  | nil => intro acc p h; exact h
  | cons v rest ih =>
    intro acc p h
    exact ih _ p (transformVarExpr_mono valid v.expr acc p h)

lemma destructured_fold_collects (valid : String → Bool) :
    ∀ (l : List Var) (acc : List String) (v : Var), v ∈ l →
      evaluatorShaped v.expr = true →
      ∀ p, p ∈ accessedProps v.expr → valid p = false →
      p ∈ l.foldl (fun a w => (transformVarExpr valid w.expr a).2) acc := by
  intro l
  induction l with
  | nil => intro acc v h; simp at h
  | cons u rest ih =>
    intro acc v hv hshape p hp hvalid
    rcases List.mem_cons.mp hv with h | h
    · subst h
      exact destructured_fold_mono valid rest _ p
        (transformVarExpr_collects valid v.expr hshape acc p hp hvalid)
    · exact ih _ v h hshape p hp hvalid

/-- Claim C2: every prop name that the dynamic CSS variables of a styled
call site read off the props parameter and that is not a valid HTML
attribute is destructured in the parameter object of the emitted
forwardRef component before the props rest, and therefore never appears
among the keys the rest receives and spreads onto the underlying element.
The variable expressions are assumed to have the shapes the style
evaluator produces, and duplicate variable names to carry the same
expression. -/
theorem styled_prop_isolation (valid : String → Bool) (vars : List Var)
    (hshape : ∀ v ∈ vars, evaluatorShaped v.expr = true)
    (hdup : ∀ v ∈ vars, ∀ w ∈ vars, v.name = w.name → v.expr = w.expr)
    (p : String) (hp : ∃ v ∈ vars, p ∈ accessedProps v.expr)
    (hinvalid : valid p = false) :
    p ∈ styledDestructured valid vars
    ∧ p ∈ styledParamList valid vars
    ∧ ∀ propKeys : List String,
        p ∉ restKeys (styledParamList valid vars) propKeys := by
  obtain ⟨v, hv, hpv⟩ := hp
  obtain ⟨u, hu, hku⟩ :=
    uniqueByAux_covers (fun x : Var => x.name) vars [] v hv (by simp)
  have husub : u ∈ vars := uniqueByAux_subset _ vars [] u hu
  have huv : u.expr = v.expr := hdup u husub v hv hku
  have h1 : p ∈ styledDestructured valid vars := by
    rw [styledDestructured, uniqueBy]
    exact destructured_fold_collects valid _ [] u hu (hshape u husub) p
      (huv ▸ hpv) hinvalid
  have h2 : p ∈ styledParamList valid vars := by
    rw [styledParamList]
    exact List.mem_cons_of_mem _ (List.mem_cons_of_mem _ h1)
  refine ⟨h1, h2, ?_⟩
  intro propKeys hmem
  rw [restKeys, List.mem_filter] at hmem
  have hc := hmem.2
  rw [Bool.not_eq_true', ← Bool.not_eq_true] at hc
  exact hc ((contains_iff_mem _ _).mpr h2)

/-- Witness for C2: a styled div whose font size reads props.fonty (not a
valid HTML attribute) destructures fonty, which is then absent from the
rest keys even when the caller passes it. -/
theorem styled_prop_isolation_witness :
    "fonty" ∈ styledDestructured (fun s => s == "href")
        [⟨"--a", SExpr.arrow (.propsAccess "fonty")⟩]
    ∧ "fonty" ∉ restKeys
        (styledParamList (fun s => s == "href")
          [⟨"--a", SExpr.arrow (.propsAccess "fonty")⟩])
        ["fonty", "id"] := by
  have h := styled_prop_isolation (fun s => s == "href")
    [⟨"--a", SExpr.arrow (.propsAccess "fonty")⟩]
    (by decide) (by decide) "fonty"
    ⟨⟨"--a", SExpr.arrow (.propsAccess "fonty")⟩, by decide, by decide⟩
    (by decide)
  exact ⟨h.1, h.2.2 ["fonty", "id"]⟩

/-! ## Claims C8 and C10: merging a preexisting style object -/

lemma jsInsert_perm (i : Nat) (a : α) (l : List α) : List.Perm (jsInsert i a l) (a :: l) := by
  rw [jsInsert]
  have h := @List.perm_middle _ a (l.take i) (l.drop i)
  rwa [List.take_append_drop] at h

lemma jsInsert_at_len (pre dyn : List α) (a : α) :
    jsInsert pre.length a (pre ++ dyn) = pre ++ a :: dyn := by
  rw [jsInsert, List.take_left, List.drop_left]

lemma mergeAux_no_method :
    ∀ (ps pre dyn : List ObjProp), (∀ p ∈ ps, p.isMethod = false) →
      mergeStylePropsAux pre.length ps (pre ++ dyn) = pre ++ (ps ++ dyn) := by
  intro ps
  induction ps with
  | nil => intro pre dyn _; simp [mergeStylePropsAux]
  | cons p ps ih =>
    intro pre dyn h
    have hp : p.isMethod = false := h p (List.mem_cons_self _ _)
    rw [mergeStylePropsAux, hp]
    simp only [Bool.false_eq_true, if_false]
    rw [jsInsert_at_len]
    have hlen : pre.length + 1 = (pre ++ [p]).length := by simp
    have happ : pre ++ p :: dyn = (pre ++ [p]) ++ dyn := by simp
    rw [hlen, happ, ih (pre ++ [p]) dyn (fun q hq => h q (List.mem_cons_of_mem _ hq))]
    simp

lemma mergeStyleProps_no_method (ps dyn : List ObjProp)
    (h : ∀ p ∈ ps, p.isMethod = false) :
    mergeStyleProps ps dyn = ps ++ dyn := by
  have h0 := mergeAux_no_method ps [] dyn h
  simpa [mergeStyleProps] using h0

lemma mergeAux_mem :
    ∀ (ps : List ObjProp) (i : Nat) (acc : List ObjProp) (a : ObjProp),
      a ∈ mergeStylePropsAux i ps acc →
      a ∈ acc ∨ (a ∈ ps ∧ a.isMethod = false) := by
  intro ps
  induction ps with
  | nil => intro i acc a h; exact Or.inl (by simpa [mergeStylePropsAux] using h)
  | cons p ps ih =>
    intro i acc a h
    rw [mergeStylePropsAux] at h
    by_cases hm : p.isMethod = true
    · rw [if_pos hm] at h
      rcases ih _ _ _ h with h1 | h1
      · exact Or.inl h1
      · exact Or.inr ⟨List.mem_cons_of_mem _ h1.1, h1.2⟩
    · rw [if_neg hm] at h
      rcases ih _ _ _ h with h1 | h1
      · rcases List.mem_cons.mp ((jsInsert_perm i p acc).mem_iff.mp h1) with h2 | h2
        · subst h2
          exact Or.inr ⟨List.mem_cons_self _ _, by simpa using hm⟩
        · exact Or.inl h2
      · exact Or.inr ⟨List.mem_cons_of_mem _ h1.1, h1.2⟩

lemma mergeAux_sup :
    ∀ (ps : List ObjProp) (i : Nat) (acc : List ObjProp) (a : ObjProp),
      a ∈ acc → a ∈ mergeStylePropsAux i ps acc := by
  intro ps
  induction ps with
  | nil => intro i acc a h; simpa [mergeStylePropsAux] using h
  | cons p ps ih =>
    intro i acc a h
    rw [mergeStylePropsAux]
    by_cases hm : p.isMethod = true
    · rw [if_pos hm]; exact ih _ _ _ h
    · rw [if_neg hm]
      exact ih _ _ _ ((jsInsert_perm i p acc).mem_iff.mpr (List.mem_cons_of_mem _ h))

lemma mergeAux_keeps :
    ∀ (ps : List ObjProp) (i : Nat) (acc : List ObjProp) (p : ObjProp),
      p ∈ ps → p.isMethod = false → p ∈ mergeStylePropsAux i ps acc := by
  intro ps
  induction ps with
  | nil => intro i acc p h; simp at h
  | cons q ps ih =>
    intro i acc p hp hpm
    rcases List.mem_cons.mp hp with h | h
    · subst h
      rw [mergeStylePropsAux, hpm]
      simp only [Bool.false_eq_true, if_false]
      exact mergeAux_sup ps _ _ p ((jsInsert_perm i p acc).mem_iff.mpr (List.mem_cons_self _ _))
    · rw [mergeStylePropsAux]
      by_cases hm : q.isMethod = true
      · rw [if_pos hm]; exact ih _ _ p h hpm
      · rw [if_neg hm]; exact ih _ _ p h hpm

lemma dynamicStyleProps_no_method (vars : List Var) :
    ∀ q ∈ dynamicStyleProps vars, q.isMethod = false := by
  intro q hq
  rw [dynamicStyleProps] at hq
  obtain ⟨nv, _, h⟩ := List.mem_map.mp hq
  rw [← h]
  rfl

/-- Counterexample for C8 as stated: with a preexisting style object
containing a method between two ordinary properties and two dynamic CSS
variables, the merged style object interleaves the second original
property between the variable assignments, so it is neither the kept
original properties followed by the assignments nor all original
properties followed by the assignments. -/
theorem style_merge_order_counterexample :
    buildCompiledStyleAttributes
        [JSXAttr.attr "id" (.strLit "a"),
         JSXAttr.attr "style" (.exprObject
           [ObjProp.prop "color" (.lit "red"), ObjProp.method "method" "m",
            ObjProp.prop "top" (.lit "0")])]
        [⟨"--x", .lit "1"⟩, ⟨"--y", .lit "2"⟩]
      = [JSXAttr.attr "id" (.strLit "a"),
         JSXAttr.attr "style" (.exprObject
           [ObjProp.prop "color" (.lit "red"), ObjProp.prop "--x" (.lit "1"),
            ObjProp.prop "top" (.lit "0"), ObjProp.prop "--y" (.lit "2")])]
    ∧ ¬ (buildCompiledStyleAttributes
          [JSXAttr.attr "id" (.strLit "a"),
           JSXAttr.attr "style" (.exprObject
             [ObjProp.prop "color" (.lit "red"), ObjProp.method "method" "m",
              ObjProp.prop "top" (.lit "0")])]
          [⟨"--x", .lit "1"⟩, ⟨"--y", .lit "2"⟩]
        = [JSXAttr.attr "id" (.strLit "a"),
           JSXAttr.attr "style" (.exprObject
             ([ObjProp.prop "color" (.lit "red"), ObjProp.prop "top" (.lit "0")]
               ++ [ObjProp.prop "--x" (.lit "1"), ObjProp.prop "--y" (.lit "2")]))])
    ∧ ¬ (buildCompiledStyleAttributes
          [JSXAttr.attr "id" (.strLit "a"),
           JSXAttr.attr "style" (.exprObject
             [ObjProp.prop "color" (.lit "red"), ObjProp.method "method" "m",
              ObjProp.prop "top" (.lit "0")])]
          [⟨"--x", .lit "1"⟩, ⟨"--y", .lit "2"⟩]
        = [JSXAttr.attr "id" (.strLit "a"),
           JSXAttr.attr "style" (.exprObject
             ([ObjProp.prop "color" (.lit "red"), ObjProp.method "method" "m",
               ObjProp.prop "top" (.lit "0")]
               ++ [ObjProp.prop "--x" (.lit "1"), ObjProp.prop "--y" (.lit "2")]))]) :=
  ⟨by decide, by decide, by decide⟩

/-- Claim C8 amended: for a css-prop call site with at least one variable
and a preexisting style attribute whose value is an object expression all
of whose members are ordinary properties or spreads (no object methods),
the emitted element carries a single new style object consisting of the
original members in declaration order followed by the CSS-variable
assignments; when there are no variables the attributes, including any
preexisting style attribute, are left unchanged. -/
theorem style_merge_amended (attrs : List JSXAttr) (vars : List Var)
    (before after : List JSXAttr) (ps : List ObjProp)
    (hv : vars.isEmpty = false)
    (hs : extractStyleAttr attrs = some (before, .exprObject ps, after))
    (hm : ∀ p ∈ ps, p.isMethod = false) :
    buildCompiledStyleAttributes attrs vars
      = (before ++ after)
        ++ [JSXAttr.attr "style" (.exprObject (ps ++ dynamicStyleProps vars))]
    ∧ ∀ attrs' : List JSXAttr, buildCompiledStyleAttributes attrs' [] = attrs' := by
  constructor
  · rw [buildCompiledStyleAttributes, hv, hs]
    simp only [Bool.false_eq_true, if_false]
    rw [mergeStyleProps_no_method ps (dynamicStyleProps vars) hm]
  · intro attrs'
    rw [buildCompiledStyleAttributes]
    rfl

/-- Witness for C8 amended: a method-free style object is preserved in
order with the variable assignment appended, and without variables the
attributes are untouched. -/
theorem style_merge_amended_witness :
    buildCompiledStyleAttributes
        [JSXAttr.attr "style" (.exprObject
           [ObjProp.prop "color" (.lit "red"), ObjProp.spread (.ident "mixin")])]
        [⟨"--x", .lit "1"⟩]
      = (([] : List JSXAttr) ++ ([] : List JSXAttr))
        ++ [JSXAttr.attr "style" (.exprObject
           ([ObjProp.prop "color" (.lit "red"), ObjProp.spread (.ident "mixin")]
             ++ dynamicStyleProps [⟨"--x", .lit "1"⟩]))]
    ∧ buildCompiledStyleAttributes
        [JSXAttr.attr "style" (.strLit "color:red"), JSXAttr.spreadAttr (.ident "p")] []
      = [JSXAttr.attr "style" (.strLit "color:red"), JSXAttr.spreadAttr (.ident "p")] := by
  have h := style_merge_amended
    [JSXAttr.attr "style" (.exprObject
       [ObjProp.prop "color" (.lit "red"), ObjProp.spread (.ident "mixin")])]
    [⟨"--x", .lit "1"⟩] [] []
    [ObjProp.prop "color" (.lit "red"), ObjProp.spread (.ident "mixin")]
    (by decide) (by decide) (by decide)
  exact ⟨h.1, h.2 [JSXAttr.attr "style" (.strLit "color:red"), JSXAttr.spreadAttr (.ident "p")]⟩

/-- Claim C10: when the preexisting style object of a css-prop call site
contains an object method (method, getter or setter), the merged style
object of the emitted element contains no object method at all — in
particular not that one — while every ordinary member is preserved, and
the emission completes normally instead of reporting an error. -/
theorem object_method_dropped (attrs : List JSXAttr) (vars : List Var)
    (before after : List JSXAttr) (ps : List ObjProp) (kind key : String)
    (hv : vars.isEmpty = false)
    (hs : extractStyleAttr attrs = some (before, .exprObject ps, after))
    (_hmem : ObjProp.method kind key ∈ ps) :
    ∃ merged, buildCompiledStyleAttributes attrs vars
        = (before ++ after) ++ [JSXAttr.attr "style" (.exprObject merged)]
      ∧ (∀ p ∈ merged, p.isMethod = false)
      ∧ ObjProp.method kind key ∉ merged
      ∧ ∀ p ∈ ps, p.isMethod = false → p ∈ merged := by
  refine ⟨mergeStyleProps ps (dynamicStyleProps vars), ?_, ?_, ?_, ?_⟩
  · rw [buildCompiledStyleAttributes, hv, hs]
    rfl
  · intro p hp
    rcases mergeAux_mem ps 0 _ p hp with h | h
    · exact dynamicStyleProps_no_method vars p h
    · exact h.2
  · intro hcon
    rcases mergeAux_mem ps 0 _ _ hcon with h | h
    · have := dynamicStyleProps_no_method vars _ h
      simp [ObjProp.isMethod] at this
    · have := h.2
      simp [ObjProp.isMethod] at this
  · intro p hp hpm
    exact mergeAux_keeps ps 0 _ p hp hpm

/-- Witness for C10: a getter inside the style object is dropped from the
merged object while the ordinary property survives. -/
theorem object_method_dropped_witness :
    ∃ merged, buildCompiledStyleAttributes
        [JSXAttr.attr "style" (.exprObject
           [ObjProp.prop "color" (.lit "red"), ObjProp.method "get" "m"])]
        [⟨"--x", .lit "1"⟩]
        = (([] : List JSXAttr) ++ ([] : List JSXAttr))
          ++ [JSXAttr.attr "style" (.exprObject merged)]
      ∧ (∀ p ∈ merged, p.isMethod = false)
      ∧ ObjProp.method "get" "m" ∉ merged
      ∧ ∀ p ∈ [ObjProp.prop "color" (.lit "red"), ObjProp.method "get" "m"],
          p.isMethod = false → p ∈ merged :=
  object_method_dropped
    [JSXAttr.attr "style" (.exprObject
       [ObjProp.prop "color" (.lit "red"), ObjProp.method "get" "m"])]
    [⟨"--x", .lit "1"⟩] [] []
    [ObjProp.prop "color" (.lit "red"), ObjProp.method "get" "m"]
    "get" "m" (by decide) (by decide) (by decide)

/-! ## Claim C1: at most one hoisted constant per sheet string -/

lemma lookup_none_iff (l : List (String × String)) (s : String) :
    l.lookup s = none ↔ s ∉ l.map Prod.fst := by
  induction l with
  | nil => simp [List.lookup]
  | cons kv rest ih =>
    obtain ⟨k, v⟩ := kv
    by_cases h : s = k
    · subst h
      simp [List.lookup]
    · have hbeq : (s == k) = false := by simpa using h
      simp [List.lookup, hbeq, ih, h]

lemma lookup_some_mem (l : List (String × String)) (s id : String)
    (h : l.lookup s = some id) : s ∈ l.map Prod.fst := by
  by_contra hc
  rw [(lookup_none_iff l s).mpr hc] at h
  cases h

lemma insertConst_ok (id s : String) :
    ∀ body : List TopStmt,
      body.any (fun t => !t.isImport) = true →
      ∃ body', insertBeforeFirstNonImport (TopStmt.constSheet id s) body = some body'
        ∧ countConsts body' = countConsts body + 1
        ∧ body'.any (fun t => !t.isImport) = true := by
  intro body
  induction body with
  | nil => intro h; simp at h
  | cons t ts ih =>
    intro h
    by_cases ht : t.isImport = true
    · have hts : ts.any (fun t => !t.isImport) = true := by
        rw [List.any_cons, ht] at h
        simpa using h
      obtain ⟨b', hb, hc, ha⟩ := ih hts
      have htc : TopStmt.isConst t = false := by
        cases t with
        | importDecl src specs => rfl
        | constSheet a b => cases ht
        | other a b => rfl
      refine ⟨t :: b', ?_, ?_, ?_⟩
      · simp [insertBeforeFirstNonImport, ht, hb]
      · simp [countConsts, List.filter_cons, htc] at hc ⊢
        simpa [countConsts] using hc
      · rw [List.any_cons, ha]
        simp
    · refine ⟨TopStmt.constSheet id s :: t :: ts, ?_, ?_, ?_⟩
      · simp [insertBeforeFirstNonImport, ht]
      · simp [countConsts, List.filter_cons, TopStmt.isConst]
      · rw [List.any_cons]
        have : (!t.isImport) = true := by simpa using ht
        simp [this]

lemma hoistAll_spec :
    ∀ (L : List String) (st : PluginState) (body : List TopStmt),
      body.any (fun t => !t.isImport) = true →
      ∃ ids st' body',
        hoistAll L st body = some (ids, st', body')
        ∧ countConsts body' = countConsts body + freshCount (st.sheets.map Prod.fst) L
        ∧ (∀ s id, st.sheets.lookup s = some id → st'.sheets.lookup s = some id)
        ∧ (∀ s ∈ L, ∃ id, st'.sheets.lookup s = some id)
        ∧ body'.any (fun t => !t.isImport) = true := by
  intro L
  induction L with
  | nil =>
    intro st body h
    exact ⟨[], st, body, rfl, by simp [freshCount], fun s id hh => hh, by simp, h⟩
  | cons s rest ih =>
    intro st body h
    cases hl : st.sheets.lookup s with
    | some id =>
      obtain ⟨ids, st', body', h1, h2, h3, h4, h5⟩ := ih st body h
      have hsk : s ∈ st.sheets.map Prod.fst := lookup_some_mem _ _ _ hl
      refine ⟨id :: ids, st', body', ?_, ?_, h3, ?_, h5⟩
      · rw [hoistAll, hoistSheet, hl]
        simp [h1]
      · rw [h2, freshCount, if_pos hsk]
      · intro t htm
        rcases List.mem_cons.mp htm with heq | hin
        · subst heq
          exact ⟨id, h3 t id hl⟩
        · exact h4 t hin
    | none =>
      have hsk : s ∉ st.sheets.map Prod.fst := (lookup_none_iff _ _).mp hl
      obtain ⟨body₁, hb1, hc1, ha1⟩ := insertConst_ok (uidName st.uidCounter) s body h
      obtain ⟨ids, st', body', h1, h2, h3, h4, h5⟩ :=
        ih { st with sheets := (s, uidName st.uidCounter) :: st.sheets,
                     uidCounter := st.uidCounter + 1 } body₁ ha1
      refine ⟨uidName st.uidCounter :: ids, st', body', ?_, ?_, ?_, ?_, h5⟩
      · rw [hoistAll, hoistSheet, hl]
        simp [hb1, h1]
      · rw [h2, hc1, freshCount, if_neg hsk]
        simp only [List.map_cons]
        omega
      · intro t id2 ht
        have hne : t ≠ s := by
          intro he
          subst he
          rw [ht] at hl
          cases hl
        have hbeq : (t == s) = false := by simpa using hne
        refine h3 t id2 ?_
        simpa [List.lookup, hbeq] using ht
      · intro t htm
        rcases List.mem_cons.mp htm with heq | hin
        · subst heq
          refine ⟨uidName st.uidCounter, h3 t _ ?_⟩
          simp [List.lookup]
        · exact h4 t hin

lemma insert_sdiff_mem (s : String) (A B : Finset String) (hs : s ∈ B) :
    insert s A \ B = A \ B := by
  ext a
  constructor
  · intro h
    obtain ⟨h1, h2⟩ := Finset.mem_sdiff.mp h
    rcases Finset.mem_insert.mp h1 with h3 | h3
    · exact absurd (by rw [h3]; exact hs) h2
    · exact Finset.mem_sdiff.mpr ⟨h3, h2⟩
  · intro h
    obtain ⟨h1, h2⟩ := Finset.mem_sdiff.mp h
    exact Finset.mem_sdiff.mpr ⟨Finset.mem_insert.mpr (Or.inr h1), h2⟩

lemma insert_sdiff_not_mem (s : String) (A B : Finset String) (hs : s ∉ B) :
    insert s A \ B = insert s (A \ insert s B) := by
  ext a
  constructor
  · intro h
    obtain ⟨h1, h2⟩ := Finset.mem_sdiff.mp h
    rcases Finset.mem_insert.mp h1 with h3 | h3
    · exact Finset.mem_insert.mpr (Or.inl h3)
    · by_cases ha : a = s
      · exact Finset.mem_insert.mpr (Or.inl ha)
      · refine Finset.mem_insert.mpr (Or.inr (Finset.mem_sdiff.mpr ⟨h3, ?_⟩))
        intro hin
        rcases Finset.mem_insert.mp hin with h4 | h4
        · exact ha h4
        · exact h2 h4
  · intro h
    rcases Finset.mem_insert.mp h with h1 | h1
    · refine Finset.mem_sdiff.mpr ⟨Finset.mem_insert.mpr (Or.inl h1), ?_⟩
      rw [h1]
      exact hs
    · obtain ⟨h2, h3⟩ := Finset.mem_sdiff.mp h1
      refine Finset.mem_sdiff.mpr ⟨Finset.mem_insert.mpr (Or.inr h2), ?_⟩
      intro hin
      exact h3 (Finset.mem_insert.mpr (Or.inr hin))

lemma freshCount_toFinset :
    ∀ (L K : List String), freshCount K L = (L.toFinset \ K.toFinset).card := by
  intro L
  induction L with
  | nil => intro K; simp [freshCount]
  | cons s rest ih =>
    intro K
    rw [freshCount]
    by_cases hs : s ∈ K
    · rw [if_pos hs, ih K, List.toFinset_cons,
        insert_sdiff_mem _ _ _ (List.mem_toFinset.mpr hs)]
    · rw [if_neg hs, ih (s :: K), List.toFinset_cons, List.toFinset_cons,
        insert_sdiff_not_mem _ _ _ (fun hin => hs (List.mem_toFinset.mp hin)),
        Finset.card_insert_of_not_mem
          (fun hin => (Finset.mem_sdiff.mp hin).2 (Finset.mem_insert_self _ _))]

lemma freshCount_dedup (L : List String) : freshCount [] L = L.dedup.length := by
  rw [freshCount_toFinset L []]
  simp [List.card_toFinset]

/-- Claim C1: within one module each distinct sheet string is hoisted to
exactly one module-level constant.  Starting from the fresh state, running
hoistSheet over any sequence of sheet strings inserts exactly one constant
per distinct string (the count of hoisted constants equals the count of
distinct rule strings), every processed string ends up recorded in
state.sheets, and any later call with the same string returns the
recorded identifier without touching the state or the module body; a
first call for an unrecorded string inserts the const declaration before
the first non-import statement and records the fresh identifier. -/
theorem hoistSheet_unique (L : List String) (body : List TopStmt) (opts : Opts)
    (hni : body.any (fun t => !t.isImport) = true)
    (hc : countConsts body = 0) :
    (∃ ids st' body',
      hoistAll L (initState opts) body = some (ids, st', body')
      ∧ countConsts body' = L.dedup.length
      ∧ ∀ s ∈ L, ∃ id, st'.sheets.lookup s = some id
          ∧ hoistSheet s st' body' = some (id, st', body'))
    ∧ ∀ (s : String) (st : PluginState) (b : List TopStmt),
        st.sheets.lookup s = none →
        hoistSheet s st b
          = (insertBeforeFirstNonImport (TopStmt.constSheet (uidName st.uidCounter) s) b).map
              (fun b' =>
                (uidName st.uidCounter,
                 { st with sheets := (s, uidName st.uidCounter) :: st.sheets,
                           uidCounter := st.uidCounter + 1 },
                 b')) := by
  constructor
  · obtain ⟨ids, st', body', h1, h2, h3, h4, h5⟩ := hoistAll_spec L (initState opts) body hni
    refine ⟨ids, st', body', h1, ?_, ?_⟩
    · rw [h2, hc, initState]
      simp [freshCount_dedup]
    · intro s hs
      obtain ⟨id, hid⟩ := h4 s hs
      refine ⟨id, hid, ?_⟩
      rw [hoistSheet, hid]
  · intro s st b hl
    rw [hoistSheet, hl]

/-- Witness for C1 on a concrete module and the sheet sequence a, b, a:
two constants are hoisted, and the repeated string reuses the recorded
identifier. -/
theorem hoistSheet_unique_witness :
    (∃ ids st' body',
      hoistAll ["a", "b", "a"] (initState ⟨none⟩)
          [TopStmt.importDecl "react" [], TopStmt.other [] []] = some (ids, st', body')
      ∧ countConsts body' = (["a", "b", "a"] : List String).dedup.length
      ∧ ∀ s ∈ (["a", "b", "a"] : List String), ∃ id, st'.sheets.lookup s = some id
          ∧ hoistSheet s st' body' = some (id, st', body'))
    ∧ ∀ (s : String) (st : PluginState) (b : List TopStmt),
        st.sheets.lookup s = none →
        hoistSheet s st b
          = (insertBeforeFirstNonImport (TopStmt.constSheet (uidName st.uidCounter) s) b).map
              (fun b' =>
                (uidName st.uidCounter,
                 { st with sheets := (s, uidName st.uidCounter) :: st.sheets,
                           uidCounter := st.uidCounter + 1 },
                 b')) :=
  hoistSheet_unique ["a", "b", "a"]
    [TopStmt.importDecl "react" [], TopStmt.other [] []] ⟨none⟩
    (by decide) (by decide)

end Compiled
